import Mathlib

/-!
Verification of `simple-rest-go` (src/main.go): a shallow embedding of the
metrics aggregator, path normalization, response-capture wrapper, route
handlers, middleware and mux dispatch, with theorems settling the spec claims.

Go maps are modelled as association lists (`lookupA` / `setA` / `getA`):
a Go map index on a missing key yields the zero value, and assignment
inserts the key.  Go `float64` durations and bucket boundaries are modelled
as exact rationals `ℚ`; Go strings (sequences of runes) as Lean `String`
(a structure over `List Char`).
-/

namespace SimpleRestGo

/-- Association-list lookup: first binding of the key, if any
(models Go `m[k]` presence). -/
def lookupA {K V : Type} [DecidableEq K] : List (K × V) → K → Option V
  | [], _ => none
  | (k, v) :: rest, key => if k = key then some v else lookupA rest key

/-- Go map read with zero value: `m[k]` yields `d` when the key is absent. -/
def getA {K V : Type} [DecidableEq K] (m : List (K × V)) (key : K) (d : V) : V :=
  (lookupA m key).getD d

/-- Go map write `m[k] = v`: replace the first binding, or append a new one. -/
def setA {K V : Type} [DecidableEq K] : List (K × V) → K → V → List (K × V)
  | [], key, v => [(key, v)]
  | (k, w) :: rest, key, v =>
      if k = key then (key, v) :: rest else (k, w) :: setA rest key v

theorem lookupA_setA_self {K V : Type} [DecidableEq K]
    (m : List (K × V)) (key : K) (v : V) :
    lookupA (setA m key v) key = some v := by
  induction m with
  | nil => simp [setA, lookupA]
  | cons hd tl ih =>
      obtain ⟨k, w⟩ := hd
      by_cases h : k = key
      · simp [setA, lookupA, h]
      · simp [setA, lookupA, h, ih]

theorem lookupA_setA_ne {K V : Type} [DecidableEq K]
    (m : List (K × V)) (key key' : K) (v : V) (h : key' ≠ key) :
    lookupA (setA m key v) key' = lookupA m key' := by
  induction m with
  | nil => simp [setA, lookupA, Ne.symm h]
  | cons hd tl ih =>
      obtain ⟨k, w⟩ := hd
      by_cases hk : k = key
      · subst hk
        simp [setA, lookupA, Ne.symm h]
      · simp [setA, lookupA, hk, ih]

theorem getA_setA_self {K V : Type} [DecidableEq K]
    (m : List (K × V)) (key : K) (v d : V) :
    getA (setA m key v) key d = v := by
  simp [getA, lookupA_setA_self]

theorem getA_setA_ne {K V : Type} [DecidableEq K]
    (m : List (K × V)) (key key' : K) (v d : V) (h : key' ≠ key) :
    getA (setA m key v) key' d = getA m key' d := by
  simp [getA, lookupA_setA_ne m key key' v h]

/-! ## Path-key normalization (src/main.go lines 68–77, inside RecordRequest)

```go
cleanPath := strings.Map(func(r rune) rune {
    if (r >= 'a' && r <= 'z') || (r >= 'A' && r <= 'Z') || (r >= '0' && r <= '9' || r == '/') {
        return r
    }
    return '_'
}, path)
if cleanPath == "" || cleanPath[0] == '_' {
    cleanPath = "root" + cleanPath
}
```
`strings.Map` maps the function over the runes of the string; since every
kept rune is ASCII and every other rune becomes `'_'`, the result is pure
ASCII, so the Go byte test `cleanPath[0] == '_'` coincides with testing the
first rune. -/

/-- The rune-mapping function passed to `strings.Map`. -/
def cleanChar (r : Char) : Char :=
  if ('a' ≤ r ∧ r ≤ 'z') ∨ ('A' ≤ r ∧ r ≤ 'Z') ∨ (('0' ≤ r ∧ r ≤ '9') ∨ r = '/')
  then r else '_'

/-- Go strings.Map of the cleaning function over the rune sequence. -/
def cleanList (p : List Char) : List Char := p.map cleanChar

/-- The `"root"`-prefixing guard on the cleaned rune sequence. -/
def rootGuard : List Char → List Char
  | [] => "root".data
  | x :: xs => if x = '_' then "root".data ++ (x :: xs) else x :: xs

/-- Full normalization of a path into a metric key, on rune sequences. -/
def normList (p : List Char) : List Char := rootGuard (cleanList p)

/-- Full normalization of a path into a metric key (Go lines 68–77). -/
def normalizePath (p : String) : String := ⟨normList p.data⟩

theorem cleanChar_idem (r : Char) : cleanChar (cleanChar r) = cleanChar r := by
  by_cases h : ('a' ≤ r ∧ r ≤ 'z') ∨ ('A' ≤ r ∧ r ≤ 'Z') ∨ (('0' ≤ r ∧ r ≤ '9') ∨ r = '/')
  · simp [cleanChar, h]
  · simp only [cleanChar, if_neg h]
    decide

theorem cleanList_idem (p : List Char) : cleanList (cleanList p) = cleanList p := by
  simp [cleanList, Function.comp_def, cleanChar_idem]

theorem cleanList_root_append (c : List Char) :
    cleanList ("root".data ++ c) = "root".data ++ cleanList c := by
  simp only [cleanList, List.map_append]
  congr 1

theorem normList_idem (p : List Char) : normList (normList p) = normList p := by
  unfold normList
  cases hc : cleanList p with
  | nil =>
      decide
  | cons x xs =>
      by_cases hx : x = '_'
      · have hidem : cleanList (x :: xs) = x :: xs := by
          rw [← hc]; exact cleanList_idem p
        simp only [rootGuard, if_pos hx]
        rw [cleanList_root_append, hidem]
        simp [rootGuard]
      · have hidem : cleanList (x :: xs) = x :: xs := by
          rw [← hc]; exact cleanList_idem p
        simp [rootGuard, hx, hidem]

/-! ## The metrics aggregator (src/main.go lines 42–90)

```go
type Metrics struct {
    mutex             sync.RWMutex
    totalRequests     map[string]int64
    statusCodes       map[string]map[int]int64
    requestDurations  map[string][]float64
    appStartTimestamp int64
}
```
The `sync.RWMutex` makes each `RecordRequest` call atomic with respect to
other `RecordRequest` and `GetPrometheusMetrics` calls; accordingly a
record operation is modelled as one pure state-transition step, and a
reachable state is a fold of such steps from the fresh state. -/

structure Metrics where
  totalRequests : List (String × Nat)
  statusCodes : List (String × List (Nat × Nat))
  requestDurations : List (String × List ℚ)
  appStartTimestamp : Int

/-- Constructor NewMetrics (lines 52–59): empty maps, start timestamp taken at
construction time (passed here as `now`). -/
def NewMetrics (now : Int) : Metrics :=
  { totalRequests := []
    statusCodes := []
    requestDurations := []
    appStartTimestamp := now }

/-- Operation Metrics.RecordRequest (lines 62–90): normalize the path, then — in one
critical section — bump the total counter, bump the per-status counter
(creating the inner map if absent), and append the duration in seconds. -/
def RecordRequest (m : Metrics) (path : String) (statusCode : Nat) (durSec : ℚ) :
    Metrics :=
  let cleanPath := normalizePath path
  let inner :=
    match lookupA m.statusCodes cleanPath with
    | none => ([] : List (Nat × Nat))
    | some l => l
  { totalRequests :=
      setA m.totalRequests cleanPath (getA m.totalRequests cleanPath 0 + 1)
    statusCodes :=
      setA m.statusCodes cleanPath
        (setA inner statusCode (getA inner statusCode 0 + 1))
    requestDurations :=
      setA m.requestDurations cleanPath
        (getA m.requestDurations cleanPath [] ++ [durSec])
    appStartTimestamp := m.appStartTimestamp }

/-- A sequence of record operations applied to a state, in order.  States
reachable from `NewMetrics now` are exactly `applyOps (NewMetrics now) ops`. -/
def applyOps (init : Metrics) (ops : List (String × Nat × ℚ)) : Metrics :=
  ops.foldl (fun m o => RecordRequest m o.1 o.2.1 o.2.2) init

/-! ## Histogram rendering (src/main.go lines 127–160, in GetPrometheusMetrics)

```go
buckets := []float64{0.005, 0.01, 0.025, 0.05, 0.1, 0.25, 0.5, 1, 2.5, 5, 10}
for path, durations := range m.requestDurations {
    bucketCounts := make([]int, len(buckets)+1)
    var sum float64
    for _, d := range durations {
        sum += d
        for i, b := range buckets {
            if d <= b { bucketCounts[i]++ }
        }
        bucketCounts[len(buckets)]++ // +Inf bucket
    }
    ... emit bucket lines, then sum, then count (len(durations)) ...
}
```
The emitted numbers are captured structurally in `HistOut`; the source
`fmt.Sprintf` text wrapping is invertible presentation and carries no
further logic. -/

/-- Fixed histogram bucket boundaries, in seconds. -/
def buckets : List ℚ :=
  [5/1000, 1/100, 25/1000, 5/100, 1/10, 25/100, 5/10, 1, 5/2, 5, 10]

/-- One pass of the inner loop over one duration `d`: add `d` to the running
sum, bump every finite bucket whose boundary admits `d`, bump the +Inf
bucket.  The accumulator is (finite bucket counts, +Inf count, sum). -/
def histStep (acc : List Nat × Nat × ℚ) (d : ℚ) : List Nat × Nat × ℚ :=
  ((acc.1.zip buckets).map fun cb => if d ≤ cb.2 then cb.1 + 1 else cb.1,
   acc.2.1 + 1, acc.2.2 + d)

/-- Initial accumulator: all counters zero (Go `make([]int, len(buckets)+1)`). -/
def histInit : List Nat × Nat × ℚ := (buckets.map fun _ => 0, 0, 0)

/-- The numbers rendered in the histogram block of one path. -/
structure HistOut where
  bucketLines : List (ℚ × Nat)
  infLine : Nat
  sumLine : ℚ
  countLine : Nat

/-- The histogram block rendered for one list of observed durations:
bucket lines pair each boundary with its counter, then the +Inf line,
the sum line, and the count line (`len(durations)`). -/
def renderHist (durations : List ℚ) : HistOut :=
  let acc := durations.foldl histStep histInit
  { bucketLines := buckets.zip acc.1
    infLine := acc.2.1
    sumLine := acc.2.2
    countLine := durations.length }

/-- The histogram block for one path key of a metrics state. -/
def histForKey (m : Metrics) (k : String) : HistOut :=
  renderHist (getA m.requestDurations k [])

theorem histFold_counts_length (durations : List ℚ) :
    (durations.foldl histStep histInit).1.length = buckets.length := by
  induction durations using List.reverseRecOn with
  | nil => simp [histInit]
  | append_singleton ds d ih =>
      rw [List.foldl_append]
      simp only [List.foldl_cons, List.foldl_nil, histStep, List.length_map,
        List.length_zip, ih]
      simp

theorem histFold_inf (durations : List ℚ) :
    (durations.foldl histStep histInit).2.1 = durations.length := by
  induction durations using List.reverseRecOn with
  | nil => simp [histInit]
  | append_singleton ds d ih =>
      rw [List.foldl_append]
      simp [histStep, ih]

theorem histFold_sum (durations : List ℚ) :
    (durations.foldl histStep histInit).2.2 = durations.sum := by
  induction durations using List.reverseRecOn with
  | nil => simp [histInit]
  | append_singleton ds d ih =>
      rw [List.foldl_append]
      simp [histStep, ih]

theorem zip_map_bump (p : ℚ → Prop) [DecidablePred p] :
    ∀ (bs : List ℚ) (cs : List Nat), bs.length = cs.length →
    bs.zip ((cs.zip bs).map fun cb => if p cb.2 then cb.1 + 1 else cb.1) =
      (bs.zip cs).map fun bc => (bc.1, if p bc.1 then bc.2 + 1 else bc.2) := by
  intro bs
  induction bs with
  | nil => intro cs h; simp
  | cons b bs ih =>
      intro cs h
      cases cs with
      | nil => simp at h
      | cons c cs =>
          simp only [List.zip_cons_cons, List.map_cons]
          rw [ih cs (by simpa using h)]

theorem renderHist_append (ds : List ℚ) (d : ℚ) :
    (renderHist (ds ++ [d])).bucketLines =
      (renderHist ds).bucketLines.map
        (fun bc => (bc.1, if d ≤ bc.1 then bc.2 + 1 else bc.2)) ∧
    (renderHist (ds ++ [d])).infLine = (renderHist ds).infLine + 1 ∧
    (renderHist (ds ++ [d])).sumLine = (renderHist ds).sumLine + d ∧
    (renderHist (ds ++ [d])).countLine = (renderHist ds).countLine + 1 := by
  have hlen : (ds.foldl histStep histInit).1.length = buckets.length :=
    histFold_counts_length ds
  refine ⟨?_, ?_, ?_, ?_⟩
  · simp only [renderHist, List.foldl_append, List.foldl_cons, List.foldl_nil,
      histStep]
    exact zip_map_bump (fun b => d ≤ b) buckets (ds.foldl histStep histInit).1
      hlen.symm
  · simp [renderHist, List.foldl_append, histStep]
  · simp [renderHist, List.foldl_append, histStep]
  · simp [renderHist]

/-! ## The client-side connection (the real `http.ResponseWriter`)

`net/http` semantics for the underlying sink: the first `WriteHeader` call
fixes the status (later calls are superfluous and ignored); a `Write`
before any `WriteHeader` implicitly sends 200.  `headerWrites` records every
`WriteHeader` invocation that reaches the sink, `logs` the process log. -/

structure Conn where
  headers : List (String × String)
  status : Option Nat
  body : String
  headerWrites : List Nat
  logs : List String

def initConn : Conn :=
  { headers := [], status := none, body := "", headerWrites := [], logs := [] }

def connWriteHeader (w : Conn) (code : Nat) : Conn :=
  { w with status := some (w.status.getD code),
           headerWrites := w.headerWrites ++ [code] }

def connWrite (w : Conn) (s : String) : Conn :=
  { w with status := some (w.status.getD 200), body := w.body ++ s }

/-- Models w.Header().Set(k, v). -/
def connSetHeader (w : Conn) (k v : String) : Conn :=
  { w with headers := setA w.headers k v }

/-- Models w.Header().Add(k, v) — appends, preserving multi-valued headers. -/
def connAddHeader (w : Conn) (k v : String) : Conn :=
  { w with headers := w.headers ++ [(k, v)] }

/-! ## The response capture wrapper (src/main.go lines 198–208)

```go
type responseWriter struct {
    http.ResponseWriter
    statusCode int
}
func (rw *responseWriter) WriteHeader(code int) {
    rw.statusCode = code
    rw.ResponseWriter.WriteHeader(code)
}
```
Only `WriteHeader` is overridden: it stores `code` into the wrapper field
(unconditionally, each call overwrites the previous value) and forwards the
call to the embedded writer.  All other operations pass straight through. -/

structure RW where
  conn : Conn
  statusCode : Nat

/-- The wrapper as the middleware constructs it (line 171–174):
`statusCode` initialized to `http.StatusOK` (200). -/
def newRW (w : Conn) : RW := { conn := w, statusCode := 200 }

def rwWriteHeader (rw : RW) (code : Nat) : RW :=
  { conn := connWriteHeader rw.conn code, statusCode := code }

def rwWrite (rw : RW) (s : String) : RW :=
  { rw with conn := connWrite rw.conn s }

def rwSetHeader (rw : RW) (k v : String) : RW :=
  { rw with conn := connSetHeader rw.conn k v }

def rwAddHeader (rw : RW) (k v : String) : RW :=
  { rw with conn := connAddHeader rw.conn k v }

/-- Captured status of the wrapper after a handler issues the given
`WriteHeader` calls in order (and no other status-relevant operation). -/
def observedStatus (calls : List Nat) : Nat :=
  (calls.foldl rwWriteHeader (newRW initConn)).statusCode

/-- The codes the wrapper forwarded to the underlying sink after the given
`WriteHeader` calls. -/
def forwardedCodes (calls : List Nat) : List Nat :=
  (calls.foldl rwWriteHeader (newRW initConn)).conn.headerWrites

/-! ## Route handlers (src/main.go lines 210–312) and the mux of `main` -/

structure Request where
  path : String
  method : String

/-- Models http.Error(w, msg, code): plain-text content type, explicit status,
error text plus newline. -/
def rwError (rw : RW) (msg : String) (code : Nat) : RW :=
  rwWrite (rwWriteHeader (rwSetHeader rw "Content-Type" "text/plain; charset=utf-8") code)
    (msg ++ "\n")

/-- Models http.NotFound(w, r): a 404 with the fixed plain-text body. -/
def rwNotFound (rw : RW) : RW := rwError rw "404 page not found" 404

/-- Reply of the backend as seen by `ForwardToBackend` on a successful send:
status, headers, the bytes that `io.Copy` manages to relay, and the error
`io.Copy` returns, if any. -/
structure BackendResp where
  statusCode : Nat
  headers : List (String × String)
  body : String
  bodyErr : Option String

/-- Handler ForwardToBackend (lines 211–256).  Building the outbound request and
sending it are environment effects, modelled by the oracles `buildErr`
(`http.NewRequest` error, if any) and `send` (`client.Do` outcome). -/
def ForwardToBackend (buildErr : Option String) (send : Except String BackendResp)
    (r : Request) (rw : RW) : RW :=
  if r.path ≠ "/" then rwNotFound rw
  else
    match buildErr with
    | some e => rwError rw ("Error creating request: " ++ e) 500
    | none =>
      match send with
      | .error e => rwError rw ("Error forwarding to backend: " ++ e) 503
      | .ok resp =>
        let rw1 := resp.headers.foldl (fun acc kv => rwAddHeader acc kv.1 kv.2) rw
        let rw2 := rwWriteHeader rw1 resp.statusCode
        let rw3 := rwWrite rw2 resp.body
        match resp.bodyErr with
        | some e =>
            { rw3 with conn :=
                { rw3.conn with logs :=
                    rw3.conn.logs ++ ["Error copying response body: " ++ e] } }
        | none => rw3

/-- Handler VersionHandler (lines 258–268). -/
def VersionHandler (version : String) (r : Request) (rw : RW) : RW :=
  if r.path ≠ "/version" then rwNotFound rw
  else rwWrite (rwSetHeader rw "Content-Type" "text/plain")
    ("Version: " ++ version ++ "\n")

/-- Handler LivenessHandler (lines 270–280); `uptimeStr` stands for
`time.Since(startTime).String()`. -/
def LivenessHandler (uptimeStr : String) (r : Request) (rw : RW) : RW :=
  if r.path ≠ "/health/live" then rwNotFound rw
  else rwWrite (rwSetHeader rw "Content-Type" "application/json")
    ("\x7b\"status\":\"UP\",\"uptime\":\"" ++ uptimeStr ++ "\"\x7d")

/-- Handler ReadinessHandler (lines 282–293). -/
def ReadinessHandler (backendURL : String) (r : Request) (rw : RW) : RW :=
  if r.path ≠ "/health/ready" then rwNotFound rw
  else rwWrite (rwWriteHeader (rwSetHeader rw "Content-Type" "application/json") 200)
    ("\x7b\"status\":\"UP\",\"backend\":\"" ++ backendURL ++ "\"\x7d")

/-- Handler MetricsHandler (lines 295–305); `metricsText` stands for
`metrics.GetPrometheusMetrics()`. -/
def MetricsHandler (metricsText : String) (r : Request) (rw : RW) : RW :=
  if r.path ≠ "/metrics" then rwNotFound rw
  else rwWrite (rwSetHeader rw "Content-Type" "text/plain") metricsText

/-- Handler NotFoundHandler (lines 307–312): defined in the source but never
registered with the mux in `main`. -/
def NotFoundHandler (r : Request) (rw : RW) : RW :=
  rwWrite (rwWriteHeader (rwSetHeader rw "Content-Type" "application/json") 404)
    ("\x7b\"status\":\"Not Found\",\"message\":\"The requested URI does not exist\",\"path\":\""
      ++ r.path ++ "\"\x7d")

/-- Middleware AccessLogMiddleware (lines 166–196): wrap the sink, run the handler,
then record metrics under the raw request path with the captured status.
(The structured access-log print is an IO effect with no further dataflow.) -/
def AccessLogMiddleware (next : Request → RW → RW) (m : Metrics) (r : Request)
    (w : Conn) (durSec : ℚ) : RW × Metrics :=
  let rw := newRW w
  let rw2 := next r rw
  (rw2, RecordRequest m r.path rw2.statusCode durSec)

/-- Dispatch of the `http.ServeMux` built in `main` (lines 319–326), for canonical request
paths: the four non-root patterns match exactly; the `"/"` pattern is a
subtree root and catches every other path. -/
def muxHandler (version uptimeStr backendURL metricsText : String)
    (buildErr : Option String) (send : Except String BackendResp)
    (path : String) : Request → RW → RW :=
  if path = "/version" then VersionHandler version
  else if path = "/health/live" then LivenessHandler uptimeStr
  else if path = "/health/ready" then ReadinessHandler backendURL
  else if path = "/metrics" then MetricsHandler metricsText
  else ForwardToBackend buildErr send

/-- One full server round: mux dispatch wrapped in the access-log
middleware, exactly as registered in `main`. -/
def serverHandle (version uptimeStr backendURL metricsText : String)
    (buildErr : Option String) (send : Except String BackendResp)
    (m : Metrics) (r : Request) (w : Conn) (durSec : ℚ) : RW × Metrics :=
  AccessLogMiddleware
    (muxHandler version uptimeStr backendURL metricsText buildErr send r.path)
    m r w durSec

/-- The character replacement exactly as the spec words it: every character
other than ASCII letters, digits and `/` is replaced by `_`. -/
def specClean (p : String) : String :=
  ⟨p.data.map fun c =>
    if ('a' ≤ c ∧ c ≤ 'z') ∨ ('A' ≤ c ∧ c ≤ 'Z') ∨ ('0' ≤ c ∧ c ≤ '9') ∨ c = '/'
    then c else '_'⟩

/-- The normalization rule exactly as the spec words it: replace the
disallowed characters, then prefix the literal `"root"` when the result is
empty or begins with `_`. -/
def normalizeSpec (p : String) : String :=
  if (specClean p).data = [] ∨ (specClean p).data.head? = some '_'
  then "root" ++ specClean p else specClean p

theorem strExt {a b : String} (h : a.data = b.data) : a = b := by
  cases a
  cases b
  exact congrArg String.mk h

theorem cleanChar_eq_spec (c : Char) :
    (if ('a' ≤ c ∧ c ≤ 'z') ∨ ('A' ≤ c ∧ c ≤ 'Z') ∨ ('0' ≤ c ∧ c ≤ '9') ∨ c = '/'
     then c else '_') = cleanChar c := by
  unfold cleanChar
  exact if_congr Iff.rfl rfl rfl

theorem specClean_data (p : String) : (specClean p).data = cleanList p.data := by
  show p.data.map _ = p.data.map cleanChar
  rw [show (fun c : Char =>
    if ('a' ≤ c ∧ c ≤ 'z') ∨ ('A' ≤ c ∧ c ≤ 'Z') ∨ ('0' ≤ c ∧ c ≤ '9') ∨ c = '/'
    then c else '_') = cleanChar from funext cleanChar_eq_spec]

theorem cleanChar_allowed (r : Char) :
    ('a' ≤ cleanChar r ∧ cleanChar r ≤ 'z') ∨
    ('A' ≤ cleanChar r ∧ cleanChar r ≤ 'Z') ∨
    ('0' ≤ cleanChar r ∧ cleanChar r ≤ '9') ∨ cleanChar r = '/' ∨
    cleanChar r = '_' := by
  by_cases h : ('a' ≤ r ∧ r ≤ 'z') ∨ ('A' ≤ r ∧ r ≤ 'Z') ∨
      (('0' ≤ r ∧ r ≤ '9') ∨ r = '/')
  · simp only [cleanChar, if_pos h]
    rcases h with h | h | h | h
    · exact Or.inl h
    · exact Or.inr (Or.inl h)
    · exact Or.inr (Or.inr (Or.inl h))
    · exact Or.inr (Or.inr (Or.inr (Or.inl h)))
  · simp only [cleanChar, if_neg h]
    decide

theorem normList_chars (q : List Char) (c : Char) (hc : c ∈ normList q) :
    ('a' ≤ c ∧ c ≤ 'z') ∨ ('A' ≤ c ∧ c ≤ 'Z') ∨
    ('0' ≤ c ∧ c ≤ '9') ∨ c = '/' ∨ c = '_' := by
  have hmap : ∀ x, x ∈ cleanList q →
      ('a' ≤ x ∧ x ≤ 'z') ∨ ('A' ≤ x ∧ x ≤ 'Z') ∨
      ('0' ≤ x ∧ x ≤ '9') ∨ x = '/' ∨ x = '_' := by
    intro x hx
    obtain ⟨r, _, rfl⟩ := List.mem_map.mp hx
    exact cleanChar_allowed r
  have hroot : ∀ x, x ∈ "root".data →
      ('a' ≤ x ∧ x ≤ 'z') ∨ ('A' ≤ x ∧ x ≤ 'Z') ∨
      ('0' ≤ x ∧ x ≤ '9') ∨ x = '/' ∨ x = '_' := by
    decide
  unfold normList at hc
  cases hq : cleanList q with
  | nil =>
      rw [hq] at hc
      exact hroot c hc
  | cons x xs =>
      rw [hq] at hc
      by_cases hx : x = '_'
      · simp only [rootGuard, if_pos hx] at hc
        rcases List.mem_append.mp hc with h | h
        · exact hroot c h
        · exact hmap c (hq ▸ h)
      · simp only [rootGuard, if_neg hx] at hc
        exact hmap c (hq ▸ hc)

theorem rootGuard_eq_ite (l : List Char) :
    rootGuard l =
      if l = [] ∨ l.head? = some '_' then "root".data ++ l else l := by
  cases l with
  | nil => simp [rootGuard]
  | cons x xs =>
      by_cases hx : x = '_'
      · simp [rootGuard, hx]
      · simp [rootGuard, hx]

theorem normalizePath_eq_spec (p : String) : normalizePath p = normalizeSpec p := by
  apply strExt
  show normList p.data = (normalizeSpec p).data
  unfold normalizeSpec normList
  rw [rootGuard_eq_ite, ← specClean_data, apply_ite String.data]
  by_cases h : (specClean p).data = [] ∨ (specClean p).data.head? = some '_'
  · rw [if_pos h, if_pos h]
    rfl
  · rw [if_neg h, if_neg h]

/-- C4: path-key normalization is pure (a function), idempotent, follows the
replace-and-prefix rule, maps `""` to `"root"`, and yields only ASCII
letters, digits, `/` and `_`. -/
theorem c4_normalize_idempotent :
    (∀ p : String, normalizePath (normalizePath p) = normalizePath p) ∧
    normalizePath "" = "root" ∧
    (∀ p : String, normalizePath p = normalizeSpec p) ∧
    (∀ p : String, ((normalizePath p).data.all fun c =>
      decide (('a' ≤ c ∧ c ≤ 'z') ∨ ('A' ≤ c ∧ c ≤ 'Z') ∨
        ('0' ≤ c ∧ c ≤ '9') ∨ c = '/' ∨ c = '_')) = true) := by
  refine ⟨?_, by decide, normalizePath_eq_spec, ?_⟩
  · intro p
    show (⟨normList (normList p.data)⟩ : String) = ⟨normList p.data⟩
    rw [normList_idem]
  · intro p
    rw [List.all_eq_true]
    intro c hc
    exact decide_eq_true (normList_chars p.data c hc)

/-- C2 counterexample: after the call sequence `WriteHeader(500)` then
`WriteHeader(404)` the observed status of the wrapper is 404, not the argument
500 of the first call as the claim states. -/
theorem c2_counterexample_last_write_wins :
    observedStatus [500, 404] = 404 ∧ observedStatus [500, 404] ≠ 500 := by
  decide

theorem foldl_rwWriteHeader_statusCode (calls : List Nat) (c : Nat) (rw : RW) :
    ((calls ++ [c]).foldl rwWriteHeader rw).statusCode = c := by
  rw [List.foldl_append]
  rfl

theorem foldl_rwWriteHeader_headerWrites (calls : List Nat) :
    ∀ rw : RW,
      (calls.foldl rwWriteHeader rw).conn.headerWrites =
        rw.conn.headerWrites ++ calls := by
  induction calls with
  | nil => intro rw; simp
  | cons c cs ih =>
      intro rw
      simp only [List.foldl_cons, ih, rwWriteHeader, connWriteHeader]
      simp

/-- C2 amended: the observed status of the wrapper is 200 when no `WriteHeader`
call occurs and otherwise equals the argument of the LAST call; every call
is forwarded unchanged to the underlying sink. -/
theorem c2_amended_observed_status :
    observedStatus [] = 200 ∧
    (∀ (calls : List Nat) (c : Nat), observedStatus (calls ++ [c]) = c) ∧
    (∀ calls : List Nat, forwardedCodes calls = calls) := by
  refine ⟨rfl, ?_, ?_⟩
  · intro calls c
    exact foldl_rwWriteHeader_statusCode calls c (newRW initConn)
  · intro calls
    simp [forwardedCodes, foldl_rwWriteHeader_headerWrites, newRW, initConn]

/-- C3: cumulative histogram semantics.  Appending one observed duration
`d` bumps by exactly 1 every finite bucket whose boundary `b` satisfies
`b ≥ d`, leaves every other finite bucket unchanged, bumps the +Inf bucket
unconditionally; the rendered boundaries are exactly the fixed bucket list,
and the block also emits the sum of all durations and the observation
count. -/
theorem c3_histogram_cumulative (ds : List ℚ) (d : ℚ) :
    (renderHist (ds ++ [d])).bucketLines =
      (renderHist ds).bucketLines.map
        (fun bc => (bc.1, if bc.1 ≥ d then bc.2 + 1 else bc.2)) ∧
    (renderHist (ds ++ [d])).infLine = (renderHist ds).infLine + 1 ∧
    (renderHist ds).bucketLines.map Prod.fst = buckets ∧
    (renderHist ds).sumLine = ds.sum ∧
    (renderHist ds).countLine = ds.length := by
  obtain ⟨h1, h2, h3, h4⟩ := renderHist_append ds d
  refine ⟨?_, h2, ?_, ?_, ?_⟩
  · rw [h1]
  · show (buckets.zip (ds.foldl histStep histInit).1).map Prod.fst = buckets
    exact List.map_fst_zip _ _ (le_of_eq (histFold_counts_length ds).symm)
  · show (ds.foldl histStep histInit).2.2 = ds.sum
    exact histFold_sum ds
  · rfl

theorem record_total_bump (m : Metrics) (p : String) (c : Nat) (d : ℚ) :
    getA (RecordRequest m p c d).totalRequests (normalizePath p) 0 =
      getA m.totalRequests (normalizePath p) 0 + 1 := by
  simp only [RecordRequest]
  exact getA_setA_self _ _ _ _

theorem record_inner_eq (m : Metrics) (k : String) :
    (match lookupA m.statusCodes k with
     | none => ([] : List (Nat × Nat))
     | some l => l) = getA m.statusCodes k [] := by
  unfold getA
  cases lookupA m.statusCodes k <;> rfl

theorem record_status_bump (m : Metrics) (p : String) (c : Nat) (d : ℚ) :
    getA (getA (RecordRequest m p c d).statusCodes (normalizePath p) []) c 0 =
      getA (getA m.statusCodes (normalizePath p) []) c 0 + 1 := by
  simp only [RecordRequest, record_inner_eq]
  rw [getA_setA_self, getA_setA_self]

theorem record_durations_append (m : Metrics) (p : String) (c : Nat) (d : ℚ) :
    getA (RecordRequest m p c d).requestDurations (normalizePath p) [] =
      getA m.requestDurations (normalizePath p) [] ++ [d] := by
  simp only [RecordRequest]
  exact getA_setA_self _ _ _ _

/-- C5: one `record` call makes the rendered snapshot show exactly one more
observation for `normalize(p)`: the total counter and the (key, status)
counter are larger by 1, and the histogram block for that key has its count
larger by 1 and its sum larger by `d`. -/
theorem c5_record_render_delta (m : Metrics) (p : String) (c : Nat) (d : ℚ) :
    getA (RecordRequest m p c d).totalRequests (normalizePath p) 0 =
      getA m.totalRequests (normalizePath p) 0 + 1 ∧
    getA (getA (RecordRequest m p c d).statusCodes (normalizePath p) []) c 0 =
      getA (getA m.statusCodes (normalizePath p) []) c 0 + 1 ∧
    (histForKey (RecordRequest m p c d) (normalizePath p)).countLine =
      (histForKey m (normalizePath p)).countLine + 1 ∧
    (histForKey (RecordRequest m p c d) (normalizePath p)).sumLine =
      (histForKey m (normalizePath p)).sumLine + d := by
  refine ⟨record_total_bump m p c d, record_status_bump m p c d, ?_, ?_⟩
  · show (renderHist (getA (RecordRequest m p c d).requestDurations
      (normalizePath p) [])).countLine = _ + 1
    rw [record_durations_append]
    exact (renderHist_append _ d).2.2.2
  · show (renderHist (getA (RecordRequest m p c d).requestDurations
      (normalizePath p) [])).sumLine = _ + d
    rw [record_durations_append]
    exact (renderHist_append _ d).2.2.1

/-- Key-presence invariant of C6, for one state. -/
def keysAligned (m : Metrics) : Prop :=
  ∀ k : String, (lookupA m.totalRequests k).isSome = true →
    (lookupA m.statusCodes k).isSome = true ∧
    (lookupA m.requestDurations k).isSome = true

theorem record_frame (m : Metrics) (p : String) (c : Nat) (d : ℚ) (k : String)
    (hk : k ≠ normalizePath p) :
    lookupA (RecordRequest m p c d).totalRequests k = lookupA m.totalRequests k ∧
    lookupA (RecordRequest m p c d).statusCodes k = lookupA m.statusCodes k ∧
    lookupA (RecordRequest m p c d).requestDurations k =
      lookupA m.requestDurations k := by
  refine ⟨?_, ?_, ?_⟩ <;>
    · simp only [RecordRequest]
      exact lookupA_setA_ne _ _ _ _ hk

theorem keysAligned_record (m : Metrics) (p : String) (c : Nat) (d : ℚ)
    (h : keysAligned m) : keysAligned (RecordRequest m p c d) := by
  intro k hk
  by_cases hkp : k = normalizePath p
  · subst hkp
    constructor
    · simp only [RecordRequest]
      rw [lookupA_setA_self]
      rfl
    · simp only [RecordRequest]
      rw [lookupA_setA_self]
      rfl
  · obtain ⟨f1, f2, f3⟩ := record_frame m p c d k hkp
    rw [f1] at hk
    rw [f2, f3]
    exact h k hk

theorem keysAligned_applyOps (ops : List (String × Nat × ℚ)) :
    ∀ m : Metrics, keysAligned m → keysAligned (applyOps m ops) := by
  induction ops with
  | nil => intro m h; exact h
  | cons o os ih =>
      intro m h
      exact ih _ (keysAligned_record m o.1 o.2.1 o.2.2 h)

/-- C6: in every state reachable from the fresh state by record operations,
a path key present in `totalRequests` is also present in `statusCodes` and
in `requestDurations` (each record step updates all three maps in the same
atomic critical section, modelled as one state transition). -/
theorem c6_all_maps_updated_together (t : Int) (ops : List (String × Nat × ℚ))
    (k : String)
    (h : (lookupA (applyOps (NewMetrics t) ops).totalRequests k).isSome = true) :
    (lookupA (applyOps (NewMetrics t) ops).statusCodes k).isSome = true ∧
    (lookupA (applyOps (NewMetrics t) ops).requestDurations k).isSome = true := by
  have base : keysAligned (NewMetrics t) := by
    intro k hk
    simp [NewMetrics, lookupA] at hk
  exact keysAligned_applyOps ops (NewMetrics t) base k h

theorem c6_all_maps_updated_together_witness :
    (lookupA (applyOps (NewMetrics 0) [("/a", 200, 1)]).totalRequests
      "/a").isSome = true ∧
    ((lookupA (applyOps (NewMetrics 0) [("/a", 200, 1)]).statusCodes
        "/a").isSome = true ∧
     (lookupA (applyOps (NewMetrics 0) [("/a", 200, 1)]).requestDurations
        "/a").isSome = true) :=
  ⟨by decide, c6_all_maps_updated_together 0 [("/a", 200, 1)] "/a" (by decide)⟩

/-- Total count of a per-path status-code map (the Go iteration
`for code, count := range codes` sums the entry values; Go map keys are
unique, and the Nodup invariant below shows the modelled keys are too). -/
def sumVals (l : List (Nat × Nat)) : Nat := (l.map Prod.snd).sum

theorem sumVals_cons (k w : Nat) (l : List (Nat × Nat)) :
    sumVals ((k, w) :: l) = w + sumVals l := by
  simp [sumVals]

theorem sumVals_setA_bump (l : List (Nat × Nat)) (c : Nat) :
    sumVals (setA l c (getA l c 0 + 1)) = sumVals l + 1 := by
  induction l with
  | nil => simp [setA, sumVals, getA, lookupA]
  | cons hd tl ih =>
      obtain ⟨k, w⟩ := hd
      by_cases h : k = c
      · subst h
        have hs : setA ((k, w) :: tl) k (getA ((k, w) :: tl) k 0 + 1)
            = (k, getA ((k, w) :: tl) k 0 + 1) :: tl := by
          simp [setA]
        have hg : getA ((k, w) :: tl) k 0 = w := by
          simp [getA, lookupA]
        rw [hs, hg, sumVals_cons, sumVals_cons]
        omega
      · have hg : getA ((k, w) :: tl) c 0 = getA tl c 0 := by
          simp [getA, lookupA, h]
        have hs : setA ((k, w) :: tl) c (getA ((k, w) :: tl) c 0 + 1)
            = (k, w) :: setA tl c (getA tl c 0 + 1) := by
          simp [setA, h, hg]
        rw [hs, sumVals_cons, sumVals_cons, ih]
        omega

theorem setA_keys_sub {K V : Type} [DecidableEq K] (m : List (K × V)) (key : K)
    (v : V) :
    ∀ x, x ∈ (setA m key v).map Prod.fst → x = key ∨ x ∈ m.map Prod.fst := by
  induction m with
  | nil =>
      intro x hx
      have hset : setA ([] : List (K × V)) key v = [(key, v)] := rfl
      rw [hset] at hx
      simp at hx
      exact Or.inl hx
  | cons hd tl ih =>
      obtain ⟨k, w⟩ := hd
      intro x hx
      by_cases h : k = key
      · subst h
        have hset : setA ((k, w) :: tl) k v = (k, v) :: tl := by simp [setA]
        rw [hset, List.map_cons] at hx
        rcases List.mem_cons.mp hx with hx | hx
        · exact Or.inl hx
        · exact Or.inr (by rw [List.map_cons]; exact List.mem_cons_of_mem k hx)
      · have hset : setA ((k, w) :: tl) key v = (k, w) :: setA tl key v := by
          simp [setA, h]
        rw [hset, List.map_cons] at hx
        rcases List.mem_cons.mp hx with hx | hx
        · subst hx
          exact Or.inr (by rw [List.map_cons]; exact List.mem_cons_self _ _)
        · rcases ih x hx with h1 | h1
          · exact Or.inl h1
          · exact Or.inr (by rw [List.map_cons]; exact List.mem_cons_of_mem k h1)

theorem setA_keys_nodup {K V : Type} [DecidableEq K] (m : List (K × V)) (key : K)
    (v : V) (h : (m.map Prod.fst).Nodup) :
    ((setA m key v).map Prod.fst).Nodup := by
  induction m with
  | nil => simp [setA]
  | cons hd tl ih =>
      obtain ⟨k, w⟩ := hd
      rw [List.map_cons, List.nodup_cons] at h
      by_cases hk : k = key
      · subst hk
        have hset : setA ((k, w) :: tl) k v = (k, v) :: tl := by simp [setA]
        rw [hset, List.map_cons, List.nodup_cons]
        exact ⟨h.1, h.2⟩
      · have hset : setA ((k, w) :: tl) key v = (k, w) :: setA tl key v := by
          simp [setA, hk]
        rw [hset, List.map_cons, List.nodup_cons]
        refine ⟨?_, ih h.2⟩
        intro hmem
        rcases setA_keys_sub tl key v k hmem with h1 | h1
        · exact hk h1
        · exact h.1 h1

theorem record_statusMap_eq (m : Metrics) (p : String) (c : Nat) (d : ℚ) :
    getA (RecordRequest m p c d).statusCodes (normalizePath p) [] =
      setA (getA m.statusCodes (normalizePath p) []) c
        (getA (getA m.statusCodes (normalizePath p) []) c 0 + 1) := by
  simp only [RecordRequest, record_inner_eq]
  exact getA_setA_self _ _ _ _

/-- Per-key counting invariant of C9, for one state. -/
def countsConsistent (m : Metrics) : Prop :=
  ∀ k : String,
    getA m.totalRequests k 0 = sumVals (getA m.statusCodes k []) ∧
    getA m.totalRequests k 0 = (getA m.requestDurations k []).length ∧
    ((getA m.statusCodes k []).map Prod.fst).Nodup

theorem countsConsistent_record (m : Metrics) (p : String) (c : Nat) (d : ℚ)
    (h : countsConsistent m) : countsConsistent (RecordRequest m p c d) := by
  intro k
  by_cases hkp : k = normalizePath p
  · subst hkp
    obtain ⟨h1, h2, h3⟩ := h (normalizePath p)
    refine ⟨?_, ?_, ?_⟩
    · rw [record_total_bump, record_statusMap_eq, sumVals_setA_bump, h1]
    · rw [record_total_bump, record_durations_append, List.length_append, h2]
      rfl
    · rw [record_statusMap_eq]
      exact setA_keys_nodup _ _ _ h3
  · obtain ⟨f1, f2, f3⟩ := record_frame m p c d k hkp
    have g1 : getA (RecordRequest m p c d).totalRequests k 0 =
        getA m.totalRequests k 0 := by simp [getA, f1]
    have g2 : getA (RecordRequest m p c d).statusCodes k [] =
        getA m.statusCodes k [] := by simp [getA, f2]
    have g3 : getA (RecordRequest m p c d).requestDurations k [] =
        getA m.requestDurations k [] := by simp [getA, f3]
    rw [g1, g2, g3]
    exact h k

theorem countsConsistent_applyOps (ops : List (String × Nat × ℚ)) :
    ∀ m : Metrics, countsConsistent m → countsConsistent (applyOps m ops) := by
  induction ops with
  | nil => intro m h; exact h
  | cons o os ih =>
      intro m h
      exact ih _ (countsConsistent_record m o.1 o.2.1 o.2.2 h)

/-- C9: in every reachable state, for every path key the total counter
equals the sum of the per-status counters (whose keys are pairwise
distinct) and the number of stored durations; consequently the rendered
histogram count line and +Inf bucket both equal the total counter. -/
theorem c9_counters_agree (t : Int) (ops : List (String × Nat × ℚ)) (k : String) :
    getA (applyOps (NewMetrics t) ops).totalRequests k 0 =
      sumVals (getA (applyOps (NewMetrics t) ops).statusCodes k []) ∧
    getA (applyOps (NewMetrics t) ops).totalRequests k 0 =
      (getA (applyOps (NewMetrics t) ops).requestDurations k []).length ∧
    ((getA (applyOps (NewMetrics t) ops).statusCodes k []).map Prod.fst).Nodup ∧
    (histForKey (applyOps (NewMetrics t) ops) k).countLine =
      getA (applyOps (NewMetrics t) ops).totalRequests k 0 ∧
    (histForKey (applyOps (NewMetrics t) ops) k).infLine =
      getA (applyOps (NewMetrics t) ops).totalRequests k 0 := by
  have base : countsConsistent (NewMetrics t) := by
    intro k
    simp [NewMetrics, getA, lookupA, sumVals]
  obtain ⟨h1, h2, h3⟩ := countsConsistent_applyOps ops (NewMetrics t) base k
  refine ⟨h1, h2, h3, ?_, ?_⟩
  · show (getA (applyOps (NewMetrics t) ops).requestDurations k []).length = _
    exact h2.symm
  · show ((getA (applyOps (NewMetrics t) ops).requestDurations k
      []).foldl histStep histInit).2.1 = _
    rw [histFold_inf]
    exact h2.symm

theorem applyOps_timestamp (ops : List (String × Nat × ℚ)) :
    ∀ init : Metrics, (applyOps init ops).appStartTimestamp =
      init.appStartTimestamp := by
  induction ops with
  | nil => intro init; rfl
  | cons o os ih => intro init; exact (ih _).trans rfl

/-- C10: a record call touches only the entries of `normalize(p)` — every
total counter, status-code map and duration sequence of every other key are
unchanged — and no sequence of record operations ever changes the start
timestamp fixed at construction. -/
theorem c10_record_frame (m : Metrics) (p : String) (c : Nat) (d : ℚ)
    (k : String) (hk : k ≠ normalizePath p) :
    lookupA (RecordRequest m p c d).totalRequests k = lookupA m.totalRequests k ∧
    lookupA (RecordRequest m p c d).statusCodes k = lookupA m.statusCodes k ∧
    lookupA (RecordRequest m p c d).requestDurations k =
      lookupA m.requestDurations k ∧
    (RecordRequest m p c d).appStartTimestamp = m.appStartTimestamp ∧
    (∀ (ops : List (String × Nat × ℚ)) (init : Metrics),
      (applyOps init ops).appStartTimestamp = init.appStartTimestamp) := by
  obtain ⟨f1, f2, f3⟩ := record_frame m p c d k hk
  exact ⟨f1, f2, f3, rfl, fun ops init => applyOps_timestamp ops init⟩

theorem c10_record_frame_witness :
    (("/b" : String) ≠ normalizePath "/a") ∧
    (lookupA (RecordRequest (NewMetrics 0) "/a" 200 1).totalRequests "/b" =
      lookupA (NewMetrics 0).totalRequests "/b" ∧
     lookupA (RecordRequest (NewMetrics 0) "/a" 200 1).statusCodes "/b" =
      lookupA (NewMetrics 0).statusCodes "/b" ∧
     lookupA (RecordRequest (NewMetrics 0) "/a" 200 1).requestDurations "/b" =
      lookupA (NewMetrics 0).requestDurations "/b" ∧
     (RecordRequest (NewMetrics 0) "/a" 200 1).appStartTimestamp =
      (NewMetrics 0).appStartTimestamp ∧
     (∀ (ops : List (String × Nat × ℚ)) (init : Metrics),
       (applyOps init ops).appStartTimestamp = init.appStartTimestamp)) :=
  ⟨by decide, c10_record_frame (NewMetrics 0) "/a" 200 1 "/b" (by decide)⟩

theorem foldl_rwAddHeader (hs : List (String × String)) :
    ∀ rw : RW, hs.foldl (fun acc kv => rwAddHeader acc kv.1 kv.2) rw =
      { rw with conn := { rw.conn with headers := rw.conn.headers ++ hs } } := by
  induction hs with
  | nil => intro rw; simp
  | cons kv tl ih =>
      intro rw
      rw [List.foldl_cons, ih]
      simp [rwAddHeader, connAddHeader]

theorem forward_root (buildErr : Option String) (send : Except String BackendResp)
    (meth : String) (rw : RW) :
    ForwardToBackend buildErr send ⟨"/", meth⟩ rw =
      (match buildErr with
       | some e => rwError rw ("Error creating request: " ++ e) 500
       | none =>
         match send with
         | .error e => rwError rw ("Error forwarding to backend: " ++ e) 503
         | .ok resp =>
           let rw1 := resp.headers.foldl (fun acc kv => rwAddHeader acc kv.1 kv.2) rw
           let rw2 := rwWriteHeader rw1 resp.statusCode
           let rw3 := rwWrite rw2 resp.body
           match resp.bodyErr with
           | some e =>
               { rw3 with conn :=
                   { rw3.conn with logs :=
                       rw3.conn.logs ++ ["Error copying response body: " ++ e] } }
           | none => rw3) := by
  rfl

/-- C7: the forwarding handler at path `/`.  Request-construction failure →
500 with the error text; send failure → 503 with the error text; success →
every backend response header copied, the backend status code written
verbatim, the body relayed, and a body-copy failure only appended to the
log — the resulting status is `some resp.statusCode` for every value of
`resp.bodyErr`. -/
theorem c7_forward_error_paths (meth be se : String) (resp : BackendResp) :
    (ForwardToBackend (some be) (.error se) ⟨"/", meth⟩ (newRW initConn)).conn.status
        = some 500 ∧
    (ForwardToBackend (some be) (.error se) ⟨"/", meth⟩ (newRW initConn)).conn.body
        = ("Error creating request: " ++ be) ++ "\n" ∧
    (ForwardToBackend none (.error se) ⟨"/", meth⟩ (newRW initConn)).conn.status
        = some 503 ∧
    (ForwardToBackend none (.error se) ⟨"/", meth⟩ (newRW initConn)).conn.body
        = ("Error forwarding to backend: " ++ se) ++ "\n" ∧
    (ForwardToBackend none (.ok resp) ⟨"/", meth⟩ (newRW initConn)).conn.status
        = some resp.statusCode ∧
    (ForwardToBackend none (.ok resp) ⟨"/", meth⟩ (newRW initConn)).conn.headers
        = resp.headers ∧
    (ForwardToBackend none (.ok resp) ⟨"/", meth⟩ (newRW initConn)).conn.body
        = resp.body ∧
    (ForwardToBackend none (.ok resp) ⟨"/", meth⟩ (newRW initConn)).conn.logs
        = resp.bodyErr.elim [] (fun er => ["Error copying response body: " ++ er]) := by
  obtain ⟨st, hdrs, bd, berr⟩ := resp
  have hf := foldl_rwAddHeader hdrs (newRW initConn)
  refine ⟨rfl, rfl, rfl, rfl, ?_, ?_, ?_, ?_⟩ <;>
    · cases berr <;>
        · rw [forward_root]
          simp only [hf]
          rfl

/-- C8: the middleware records metrics keyed on the raw (unnormalized)
request path with the captured status of the wrapper, whatever handler ran; in
particular the server 404s the trailing-slash variant `/version/` of a
served route (it is caught by the `/` pattern and rejected by
`ForwardToBackend`) yet still records it under its own key `/version/`. -/
theorem c8_metrics_keyed_on_raw_path (next : Request → RW → RW) (m : Metrics)
    (r : Request) (w : Conn) (d : ℚ) (ver upt bak mtext meth : String)
    (buildErr : Option String) (send : Except String BackendResp) :
    (AccessLogMiddleware next m r w d).2 =
      RecordRequest m r.path (next r (newRW w)).statusCode d ∧
    getA (AccessLogMiddleware next m r w d).2.totalRequests
        (normalizePath r.path) 0 =
      getA m.totalRequests (normalizePath r.path) 0 + 1 ∧
    (serverHandle ver upt bak mtext buildErr send m ⟨"/version/", meth⟩ w
        d).1.statusCode = 404 ∧
    getA (serverHandle ver upt bak mtext buildErr send m ⟨"/version/", meth⟩ w
        d).2.totalRequests "/version/" 0 =
      getA m.totalRequests "/version/" 0 + 1 := by
  refine ⟨rfl, record_total_bump m r.path ((next r (newRW w)).statusCode) d,
    rfl, ?_⟩
  have hnorm : normalizePath "/version/" = "/version/" := by decide
  have hb := record_total_bump m "/version/" 404 d
  rw [hnorm] at hb
  exact hb

/-- C1 (code bug): `NotFoundHandler` is never registered in `main`, so an
unserved path such as `/unknown/path` is caught by the `/` pattern and
answered by `http.NotFound` inside `ForwardToBackend`: status 404 as the
claim states, but with the plain-text body `404 page not found\n` — not the
claimed JSON body, which only the dead `NotFoundHandler` would produce. -/
theorem c1_unknown_path_plain_404 (ver upt bak mtext meth : String)
    (buildErr : Option String) (send : Except String BackendResp)
    (m : Metrics) (d : ℚ) :
    (serverHandle ver upt bak mtext buildErr send m ⟨"/unknown/path", meth⟩
        initConn d).1.conn.status = some 404 ∧
    (serverHandle ver upt bak mtext buildErr send m ⟨"/unknown/path", meth⟩
        initConn d).1.conn.body = "404 page not found\n" ∧
    (NotFoundHandler ⟨"/unknown/path", meth⟩ (newRW initConn)).conn.status
        = some 404 ∧
    (NotFoundHandler ⟨"/unknown/path", meth⟩ (newRW initConn)).conn.body
        = "\x7b\"status\":\"Not Found\",\"message\":\"The requested URI does not exist\",\"path\":\"/unknown/path\"\x7d" ∧
    (serverHandle ver upt bak mtext buildErr send m ⟨"/unknown/path", meth⟩
        initConn d).1.conn.body ≠
      (NotFoundHandler ⟨"/unknown/path", meth⟩ (newRW initConn)).conn.body := by
  refine ⟨rfl, rfl, rfl, rfl, ?_⟩
  have h1 : (serverHandle ver upt bak mtext buildErr send m
      ⟨"/unknown/path", meth⟩ initConn d).1.conn.body
      = "404 page not found\n" := rfl
  have h2 : (NotFoundHandler ⟨"/unknown/path", meth⟩ (newRW initConn)).conn.body
      = "\x7b\"status\":\"Not Found\",\"message\":\"The requested URI does not exist\",\"path\":\"/unknown/path\"\x7d" := rfl
  rw [h1, h2]
  decide

end SimpleRestGo
